import Mathlib

/-!
# Verification of the freud spatial neighbor-query core

This file is a shallow embedding, in Lean 4, of the neighbor-query core of the
freud particle-analysis library (files under `src/cpp/locality/`), together
with theorems settling the frozen specification claims.

Modelling conventions:
* C++ `float` values are modelled as exact rationals (`ℚ`).  All comparisons
  performed by the code are order comparisons, which the embedding mirrors
  exactly.  Euclidean distances are represented throughout by their squares
  (the code itself compares squared distances against squared cutoffs; taking
  square roots is a monotone bijection on nonnegative values, so `d < r` holds
  iff `d² < r²`).
* `unsigned int` indices are modelled as `ℕ`.
* Code that throws (`throw std::runtime_error`) is modelled with `Except`.
* Files of the repository that are not present under `src/` (`Box.h`,
  `AABB.h`, `AABBTree.h`, `NeighborBond.h`, headers of iterator classes) are
  modelled from the spec; each such definition carries a doc comment starting
  with `Modelled from the spec:`.
-/

namespace Freud

attribute [local semireducible] Rat.add Rat.mul Rat.inv Rat.sub

deriving instance DecidableEq for Except

/-- Exact-rational model of `vec3<float>` (`VectorMath.h`). -/
structure Vec3 where
  x : ℚ
  y : ℚ
  z : ℚ
deriving DecidableEq, Repr

namespace Vec3

def zero : Vec3 := ⟨0, 0, 0⟩

instance : Add Vec3 := ⟨fun a b => ⟨a.x + b.x, a.y + b.y, a.z + b.z⟩⟩

instance : Sub Vec3 := ⟨fun a b => ⟨a.x - b.x, a.y - b.y, a.z - b.z⟩⟩

/-- `dot(v, v)`: the squared Euclidean norm used by the C++ code. -/
def normSq (v : Vec3) : ℚ := v.x * v.x + v.y * v.y + v.z * v.z

/-- The Euclidean inner product (`dot`, `VectorMath.h`). -/
def dot (u v : Vec3) : ℚ := u.x * v.x + u.y * v.y + u.z * v.z

/-- The cross product (`cross`, `VectorMath.h`), used to express the spec's
face normals of a parallelepipedal cell. -/
def cross (u v : Vec3) : Vec3 :=
  ⟨u.y * v.z - u.z * v.y, u.z * v.x - u.x * v.z, u.x * v.y - u.y * v.x⟩

end Vec3

/-- Error conditions raised by the core (`throw std::runtime_error` sites),
named after the spec's language-neutral error kinds (§7). -/
inductive FreudError where
  | boxTooSmall
  | unsorted
  | queryIndexOutOfRange
  | pointIndexOutOfRange
  | invalidQueryArgs
  | unsupported
  | accessOutOfRange
deriving DecidableEq, Repr

/-- Modelled from the spec: `Box.h` is absent from `src/`.  Per spec §3/§4.1
a box is a (generally triclinic) parallelepipedal cell given by three lattice
vectors (a, b, c), plus periodicity flags and a 2D flag.  The spec derives
the nearest-plane distances from the cell ("Derived: nearest-plane distances
(distance from origin to each pair of opposing faces)"); the C++ `Box` caches
them and exposes them through `getNearestPlaneDistance()`.  Since the derived
distance `|a·(b×c)| / |b×c|` involves a square root, the model stores the
cached `vec3` as a field (the rational stand-in for the float the C++ box
returns) and `Box.wellFormed` states the spec's derivation in squared form. -/
structure Box where
  latA : Vec3
  latB : Vec3
  latC : Vec3
  nearestPlaneDistance : Vec3
  px : Bool
  py : Bool
  pz : Bool
  is2D : Bool
deriving DecidableEq, Repr

namespace Box

/-- Modelled from the spec: `getLatticeVector(i)` returns the `i`-th lattice
vector of the cell. -/
def latticeVector (b : Box) : ℕ → Vec3
  | 0 => b.latA
  | 1 => b.latB
  | _ => b.latC

/-- The minimum of the three nearest-plane distances, as computed at
`AABBQuery.cc:192-193` (`std::min(std::min(x, y), z)` on
`getNearestPlaneDistance()`). -/
def minPlaneDistance (b : Box) : ℚ :=
  min (min b.nearestPlaneDistance.x b.nearestPlaneDistance.y)
    b.nearestPlaneDistance.z

/-- Spec §4.1: in 2D the z component of inputs is zeroed.  The source zeroes
`pos.z` whenever `box.is2D()` (`AABBQuery.cc:53-54,129-132,155-158`). -/
def effective (b : Box) (v : Vec3) : Vec3 := if b.is2D then ⟨v.x, v.y, 0⟩ else v

/-- Modelled from the spec (§3): the box is a genuine parallelepipedal cell
(nonzero volume `a·(b×c)`), and the cached `nearestPlaneDistance` components
are the derived distances between opposing faces: the distance for the `a`
axis is `|a·(b×c)| / |b×c|` (the projection of `a` onto the unit normal of
the face spanned by `b` and `c`), and cyclically for the other two axes.
Each derivation is stated in squared form, `d² · |n|² = (axis·n)²`, because
the distance itself is a square root of a rational. -/
def wellFormed (b : Box) : Prop :=
  Vec3.dot b.latA (Vec3.cross b.latB b.latC) ≠ 0 ∧
  b.nearestPlaneDistance.x * b.nearestPlaneDistance.x *
      Vec3.normSq (Vec3.cross b.latB b.latC) =
    Vec3.dot b.latA (Vec3.cross b.latB b.latC) *
      Vec3.dot b.latA (Vec3.cross b.latB b.latC) ∧
  b.nearestPlaneDistance.y * b.nearestPlaneDistance.y *
      Vec3.normSq (Vec3.cross b.latC b.latA) =
    Vec3.dot b.latB (Vec3.cross b.latC b.latA) *
      Vec3.dot b.latB (Vec3.cross b.latC b.latA) ∧
  b.nearestPlaneDistance.z * b.nearestPlaneDistance.z *
      Vec3.normSq (Vec3.cross b.latA b.latB) =
    Vec3.dot b.latC (Vec3.cross b.latA b.latB) *
      Vec3.dot b.latC (Vec3.cross b.latA b.latB)

end Box

/-! ## Image enumeration (`AABBIterator::updateImageVectors`, AABBQuery.cc:62-121) -/

/-- The guard of `AABBQuery.cc:67-69`: some periodic axis (z only when the box
is 3D) has nearest-plane distance `≤ 2 * rmax`. -/
def boxTooSmallCheck (b : Box) (rmax : ℚ) : Bool :=
  (b.px && decide (b.nearestPlaneDistance.x ≤ rmax * 2)) ||
    (b.py && decide (b.nearestPlaneDistance.y ≤ rmax * 2)) ||
    (!b.is2D && b.pz && decide (b.nearestPlaneDistance.z ≤ rmax * 2))

/-- `n_dim_periodic` (`AABBQuery.cc:76`): count of periodic dimensions, z
contributing only in 3D. -/
def nDimPeriodic (b : Box) : ℕ :=
  (if b.px then 1 else 0) + (if b.py then 1 else 0) +
    (if !b.is2D && b.pz then 1 else 0)

/-- The candidate integer shift triples `(i,j,k) ∈ {-1,0,1}³` in the loop
order of `AABBQuery.cc:102-106` (i outermost, then j, then k). -/
def tripleCandidates : List (Int × Int × Int) :=
  ([-1, 0, 1] : List Int).flatMap fun i =>
    ([-1, 0, 1] : List Int).flatMap fun j =>
      ([-1, 0, 1] : List Int).map fun k => (i, j, k)

/-- The filter of `AABBQuery.cc:108-113`: skip the zero triple, skip a nonzero
coefficient on any non-periodic axis, and skip the z axis entirely in 2D. -/
def tripleAllowed (b : Box) (t : Int × Int × Int) : Bool :=
  !(t.1 == 0 && t.2.1 == 0 && t.2.2 == 0) &&
    !(t.1 != 0 && !b.px) && !(t.2.1 != 0 && !b.py) &&
    !(t.2.2 != 0 && (b.is2D || !b.pz))

/-- The image triples examined by the iterator: the zero shift first
(`AABBQuery.cc:98`), then the allowed triples in loop order, truncated by the
loop bound `n_images < m_n_images` (`AABBQuery.cc:102-106`). -/
def imageTriples (b : Box) : List (Int × Int × Int) :=
  (0, 0, 0) :: (tripleCandidates.filter (tripleAllowed b)).take (3 ^ nDimPeriodic b - 1)

/-- `float(i) * latt_a + float(j) * latt_b + float(k) * latt_c`
(`AABBQuery.cc:115`), with `latt_c` zeroed in 2D (`AABBQuery.cc:91-95`). -/
def imageShift (b : Box) (t : Int × Int × Int) : Vec3 :=
  let a := b.latticeVector 0
  let bv := b.latticeVector 1
  let c := if b.is2D then Vec3.zero else b.latticeVector 2
  ⟨(t.1 : ℚ) * a.x + (t.2.1 : ℚ) * bv.x + (t.2.2 : ℚ) * c.x,
   (t.1 : ℚ) * a.y + (t.2.1 : ℚ) * bv.y + (t.2.2 : ℚ) * c.y,
   (t.1 : ℚ) * a.z + (t.2.1 : ℚ) * bv.z + (t.2.2 : ℚ) * c.z⟩

/-- `AABBIterator::updateImageVectors(rmax)` (`AABBQuery.cc:62-121`): raise
`BoxTooSmall` when the guard fires, otherwise produce the image list. -/
def updateImageVectors (b : Box) (rmax : ℚ) : Except FreudError (List Vec3) :=
  if boxTooSmallCheck b rmax then .error .boxTooSmall
  else .ok ((imageTriples b).map (imageShift b))

/-! ## AABB primitives and the AABB tree

`AABB.h` and `AABBTree.h` are absent from `src/`; the structures below are
modelled from spec §3, §4.2 and §4.3.  The stackless traversal itself is
embedded from the source (`AABBQueryBallIterator::next`, AABBQuery.cc:141-181).
-/

/-- Modelled from the spec: an axis-aligned bounding box as a lower/upper
pair (§3). -/
structure AABB where
  lo : Vec3
  hi : Vec3
deriving DecidableEq, Repr

/-- Per-axis distance from a coordinate `c` to the closed interval
`[lo, hi]`. -/
def axDist (c lo hi : ℚ) : ℚ := max (lo - c) (max (c - hi) 0)

/-- Squared distance from a point to a closed AABB. -/
def distSqPointAABB (c : Vec3) (box : AABB) : ℚ :=
  axDist c.x box.lo.x box.hi.x * axDist c.x box.lo.x box.hi.x +
    axDist c.y box.lo.y box.hi.y * axDist c.y box.lo.y box.hi.y +
    axDist c.z box.lo.z box.hi.z * axDist c.z box.lo.z box.hi.z

/-- Modelled from the spec: `overlap(box, sphere)` is true iff the squared
distance from the sphere's center to the closed AABB is at most `r²`
(§4.2). -/
def overlapB (box : AABB) (c : Vec3) (rSq : ℚ) : Bool :=
  decide (distSqPointAABB c box ≤ rSq)

/-- Membership of a point in a closed AABB. -/
def inAABB (v : Vec3) (box : AABB) : Prop :=
  box.lo.x ≤ v.x ∧ v.x ≤ box.hi.x ∧ box.lo.y ≤ v.y ∧ v.y ≤ box.hi.y ∧
    box.lo.z ≤ v.z ∧ v.z ≤ box.hi.z

/-- Enlarge an AABB to cover one more point (componentwise min/max). -/
def growAABB (box : AABB) (v : Vec3) : AABB :=
  ⟨⟨min box.lo.x v.x, min box.lo.y v.y, min box.lo.z v.z⟩,
   ⟨max box.hi.x v.x, max box.hi.y v.y, max box.hi.z v.z⟩⟩

/-- Modelled from the spec: the AABB of a bucket of point indices — the
smallest axis-aligned box covering the (effective) positions of its tags
(§3: every descendant leaf's point lies inside a node's AABB). -/
def aabbOfTags (p : ℕ → Vec3) : List ℕ → AABB
  | [] => ⟨Vec3.zero, Vec3.zero⟩
  | t :: ts => ts.foldl (fun acc u => growAABB acc (p u)) ⟨p t, p t⟩

/-- Modelled from the spec: the AABB tree as a binary tree whose leaves hold
buckets of point indices (§3, §4.3; any construction meeting the invariants
is acceptable, and the node AABBs are the covering boxes of the subtree
tags). -/
inductive AABBTree where
  | leaf (tags : List ℕ)
  | node (l r : AABBTree)
deriving DecidableEq, Repr

/-- All point indices stored in a tree, in pre-order bucket order. -/
def treeTags : AABBTree → List ℕ
  | .leaf tags => tags
  | .node l r => treeTags l ++ treeTags r

/-- One entry of the pre-order node array (§3): AABB, skip offset, leaf flag
and bucket.  `skip` is the number of nodes advanced *before* the loop's
unconditional `cur_node_idx++` (AABBQuery.cc:177-179), so `skip + 1` bypasses
the whole subtree: `skip` = subtree node count − 1. -/
structure TreeNode where
  box : AABB
  skip : ℕ
  isLeaf : Bool
  tags : List ℕ
deriving DecidableEq, Repr

/-- Modelled from the spec: the pre-order node array with skip offsets
(§3, §4.3). -/
def flatten (p : ℕ → Vec3) : AABBTree → List TreeNode
  | .leaf tags => [⟨aabbOfTags p tags, 0, true, tags⟩]
  | .node l r =>
    let fl := flatten p l
    let fr := flatten p r
    ⟨aabbOfTags p (treeTags (.node l r)), fl.length + fr.length, false, []⟩ ::
      (fl ++ fr)

/-- The bucket scan of `AABBQueryBallIterator::next` (AABBQuery.cc:148-171):
for each tag in order, yield `(j, squared distance)` when the squared distance
is strictly below the squared cutoff. -/
def scanBucket (p : ℕ → Vec3) (c : Vec3) (rSq : ℚ) (tags : List ℕ) :
    List (ℕ × ℚ) :=
  tags.filterMap fun j =>
    let d := Vec3.normSq (p j - c)
    if d < rSq then some (j, d) else none

/-- The stackless traversal of `AABBQueryBallIterator::next`
(AABBQuery.cc:141-181) over the node array: on overlap, scan the bucket (if a
leaf) and advance by one; otherwise advance by `skip + 1`, bypassing the
subtree.  The list returned is the sequence of all yields of the resumable
iterator for one image, in yield order.  `fuel` bounds the number of loop
steps; each step consumes at least the head node, so `nodes.length` steps
always run the loop to completion (see `traverseLoop`). -/
def traverseLoopF (p : ℕ → Vec3) (c : Vec3) (rSq : ℚ) :
    ℕ → List TreeNode → List (ℕ × ℚ)
  | 0, _ => []
  | _ + 1, [] => []
  | fuel + 1, n :: rest =>
    if overlapB n.box c rSq then
      (if n.isLeaf then scanBucket p c rSq n.tags else []) ++
        traverseLoopF p c rSq fuel rest
    else
      traverseLoopF p c rSq fuel (rest.drop n.skip)

/-- The complete stackless traversal (`while cur_node_idx < num_nodes`,
AABBQuery.cc:142): run the loop over the whole node array. -/
def traverseLoop (p : ℕ → Vec3) (c : Vec3) (rSq : ℚ)
    (nodes : List TreeNode) : List (ℕ × ℚ) :=
  traverseLoopF p c rSq nodes.length nodes

/-- Structural form of the traversal: check overlap at each node, recurse into
both children on a hit, prune the subtree on a miss. -/
def structTraverse (p : ℕ → Vec3) (c : Vec3) (rSq : ℚ) : AABBTree → List (ℕ × ℚ)
  | .leaf tags =>
    if overlapB (aabbOfTags p tags) c rSq then scanBucket p c rSq tags else []
  | .node l r =>
    if overlapB (aabbOfTags p (treeTags (.node l r))) c rSq then
      structTraverse p c rSq l ++ structTraverse p c rSq r
    else []

/-! ## The ball query (`AABBQueryBallIterator`, AABBQuery.cc:123-188) -/

/-- The effective positions used by the tree and the distance computations:
the source zeroes z coordinates in 2D both when building the tree
(AABBQuery.cc:52-55) and when computing distances (AABBQuery.cc:154-158). -/
def effPts (b : Box) (pts : ℕ → Vec3) : ℕ → Vec3 := fun j => b.effective (pts j)

/-- The complete yield stream of `AABBQueryBallIterator::next`
(AABBQuery.cc:123-188) before the terminator: for each image vector in order
(outer loop, AABBQuery.cc:135-184), traverse the tree with the sphere centered
at the image of the query point and collect the in-range bucket entries.  The
iterator's image vectors are computed at construction by
`updateImageVectors(r)` (spec §7: the image-vector check is raised during
iterator setup); a raised check is propagated as an error. -/
def ballQueryBonds (b : Box) (pts : ℕ → Vec3) (t : AABBTree) (q : Vec3)
    (r : ℚ) : Except FreudError (List (ℕ × ℚ)) :=
  (updateImageVectors b r).map fun images =>
    images.flatMap fun s =>
      traverseLoop (effPts b pts) (b.effective q + s) (r * r)
        (flatten (effPts b pts) t)

/-- Minimum of a list of rationals (0 for the empty list; only ever used on
nonempty lists). -/
def minq : List ℚ → ℚ
  | [] => 0
  | x :: xs => xs.foldl min x

/-- The claim's reference value for point `j`: the squared distance from the
query point to `j` minimized over the enumerated image set (the claim's
`|wrap(p_j - q)|²`, where wrap ranges over the enumerated images). -/
def minImageDistSq (b : Box) (pts : ℕ → Vec3) (q : Vec3) (j : ℕ) : ℚ :=
  minq ((imageTriples b).map fun tr =>
    Vec3.normSq (effPts b pts j - (b.effective q + imageShift b tr)))

/-- The claim's reference bond list: one bond `(j, d²)` for every point index
`j < N` whose minimum-image squared distance is strictly below `r²`. -/
def ballClaimBonds (b : Box) (pts : ℕ → Vec3) (N : ℕ) (q : Vec3) (r : ℚ) :
    List (ℕ × ℚ) :=
  (List.range N).filterMap fun j =>
    if minImageDistSq b pts q j < r * r then some (j, minImageDistSq b pts q j)
    else none

/-! ### Separation of the enumerated images

When the image-vector check accepts a nonnegative radius, any two distinct
enumerated image shifts are more than `2r` apart, so at most one image of the
query point can be strictly within `r` of any given point. -/

/-- Scenario S1 box: unit cube, non-periodic, 3D. -/
def s1Box : Box :=
  ⟨⟨1, 0, 0⟩, ⟨0, 1, 0⟩, ⟨0, 0, 1⟩, ⟨1, 1, 1⟩, false, false, false, false⟩

/-- Scenario S3 box: unit cube, periodic on all axes, 3D. -/
def s3Box : Box :=
  ⟨⟨1, 0, 0⟩, ⟨0, 1, 0⟩, ⟨0, 0, 1⟩, ⟨1, 1, 1⟩, true, true, true, false⟩

/-- Scenario S1 points: (0,0,0), (0.5,0,0), (0.9,0,0). -/
def s1Pts : ℕ → Vec3 := fun j =>
  if j = 0 then ⟨0, 0, 0⟩ else if j = 1 then ⟨1/2, 0, 0⟩ else ⟨9/10, 0, 0⟩

/-- Scenario S1 tree: a single leaf bucket holding all three indices. -/
def s1Tree : AABBTree := .leaf [0, 1, 2]

/-- Scenario S1 query point (0.3,0,0). -/
def s1Q : Vec3 := ⟨3/10, 0, 0⟩

/-! ## NeighborBond and NeighborList (`NeighborList.cc`, `NeighborBond.h`) -/

/-- Modelled from the spec: `NeighborBond.h` is absent from `src/`; a bond is
the tuple (query_idx, point_idx, distance, weight) (§3). -/
structure NeighborBond where
  queryIdx : ℕ
  pointIdx : ℕ
  distance : ℚ
  weight : ℚ
deriving DecidableEq, Repr

/-- The bond list: the five parallel arrays of `NeighborList` represented as
one row list (`m_neighbors(b,0)`, `m_neighbors(b,1)`, `m_distances[b]`,
`m_weights[b]`), plus the declared sizes. -/
structure NeighborListData where
  rows : List NeighborBond
  numQueryPoints : ℕ
  numPoints : ℕ
deriving DecidableEq, Repr

/-- The flat-array constructor loop (`NeighborList.cc:42-58`): `last` threads
`last_index`, each row is validated (`unsorted`, then the two range checks)
and stored.  NOTE (embedded faithfully from the source): line 53 stores
`m_neighbors(i, 0) = last_index;` — the *previous* row's query index — before
`last_index = index;` runs at line 57. -/
def fromArraysLoop (nq np : ℕ) :
    ℕ → List (ℕ × ℕ × ℚ × ℚ) → Except FreudError (List NeighborBond)
  | _, [] => .ok []
  | last, (qi, pj, d, w) :: rest =>
    if qi < last then .error .unsorted
    else if nq ≤ qi then .error .queryIndexOutOfRange
    else if np ≤ pj then .error .pointIndexOutOfRange
    else (fromArraysLoop nq np qi rest).map fun rs =>
      { queryIdx := last, pointIdx := pj, distance := d, weight := w } :: rs

/-- `NeighborList::NeighborList(num_bonds, query_point_index, num_query_points,
point_index, num_points, distances, weights)` (`NeighborList.cc:32-59`), with
the four parallel input arrays zipped into one list of tuples. -/
def neighborListFromArrays (bonds : List (ℕ × ℕ × ℚ × ℚ)) (nq np : ℕ) :
    Except FreudError NeighborListData :=
  (fromArraysLoop nq np 0 bonds).map fun rows => ⟨rows, nq, np⟩

/-- The compaction loop of `filter_r` (NeighborList.cc:138-148): scan the
rows in order; each row with `m_distances[i] > r_min && m_distances[i] <
r_max` is copied to the next free slot (`num_good`); the result is the
compacted prefix kept by `resize(num_good)`. -/
def filterRLoop (rMax rMin : ℚ) : List NeighborBond → List NeighborBond
  | [] => []
  | row :: rest =>
    if decide (rMin < row.distance) && decide (row.distance < rMax) then
      row :: filterRLoop rMax rMin rest
    else filterRLoop rMax rMin rest

/-- `NeighborList::filter_r(float r_max, float r_min)`
(`NeighborList.cc:133-153`) — note the C++ parameter order: the *upper*
bound `r_max` is the first parameter. -/
def NeighborListData.filter_r (nl : NeighborListData) (rMax rMin : ℚ) :
    NeighborListData :=
  { nl with rows := filterRLoop rMax rMin nl.rows }

/-- Scenario S6 bond list: 10 bonds at distances 0.1, 0.2, …, 1.0, one query
point, unit weights, sorted by query index (all zero). -/
def s6List : NeighborListData :=
  ⟨[⟨0, 0, 1/10, 1⟩, ⟨0, 1, 2/10, 1⟩, ⟨0, 2, 3/10, 1⟩, ⟨0, 3, 4/10, 1⟩,
    ⟨0, 4, 5/10, 1⟩, ⟨0, 5, 6/10, 1⟩, ⟨0, 6, 7/10, 1⟩, ⟨0, 7, 8/10, 1⟩,
    ⟨0, 8, 9/10, 1⟩, ⟨0, 9, 1, 1⟩], 1, 10⟩

/-! ## K-nearest-neighbor iterator (`AABBQueryIterator`, AABBQuery.cc:190-255) -/

/-- State of `AABBQueryIterator` across `next()` calls: the current search
radius `m_r`, the `m_finished` flag and the buffer `m_current_neighbors`. -/
structure KnnState where
  r : ℚ
  finished : Bool
  buffer : List (ℕ × ℚ)
deriving DecidableEq, Repr

/-- What a single call of `AABBQueryIterator::next()` does on return: yield a
bond, return the terminator, or reach the end of the function body with no
return statement at all (the fallthrough after the `if` at
AABBQuery.cc:237-254 when the buffer is empty). -/
inductive KnnOutcome where
  | bond (b : ℕ × ℚ)
  | terminator
  | noReturn
deriving DecidableEq, Repr

/-- Modelled from the spec: `NeighborPoint::operator<` (header absent) orders
buffered neighbors by (distance, point_idx) ascending (§4.5.2). -/
def neighborPointLE (a bq : ℕ × ℚ) : Bool :=
  decide (a.2 < bq.2) || (decide (a.2 = bq.2) && decide (a.1 ≤ bq.1))

/-- Insert into a sorted list (auxiliary for `sortByLE`). -/
def insertSorted {α : Type} (le : α → α → Bool) (a : α) : List α → List α
  | [] => [a]
  | b :: l => if le a b then a :: b :: l else b :: insertSorted le a l

/-- Model of `std::sort` with a comparator: a simple structural sort (the
source sorts a buffer and consumes it fully, so any sort agreeing with the
comparator is faithful). -/
def sortByLE {α : Type} (le : α → α → Bool) : List α → List α
  | [] => []
  | a :: l => insertSorted le a (sortByLE le l)

/-- The radius-expansion loop of `AABBQueryIterator::next()`
(AABBQuery.cc:206-233): perform a ball query at `m_r` (collecting all yields
before the terminator; errors from the image-vector check propagate); stop
with the buffer once it holds at least `k` neighbors; otherwise rescale
`m_r *= scale` and stop with the (stale) buffer once `m_r` exceeds half the
minimum plane distance.  `fuel` bounds the number of iterations; `none`
models non-termination of the `while (true)` loop. -/
def knnGatherLoop (ballAt : ℚ → Except FreudError (List (ℕ × ℚ))) (k : ℕ)
    (scale minPlane : ℚ) :
    ℕ → ℚ → Option (Except FreudError (List (ℕ × ℚ) × ℚ))
  | 0, _ => none
  | fuel + 1, r =>
    match ballAt r with
    | .error e => some (.error e)
    | .ok bonds =>
      if k ≤ bonds.length then some (.ok (bonds, r))
      else
        if minPlane / 2 < r * scale then some (.ok (bonds, r * scale))
        else knnGatherLoop ballAt k scale minPlane fuel (r * scale)

/-- One call of `AABBQueryIterator::next()` (AABBQuery.cc:190-255): return
the terminator if finished; refill the buffer via the expansion loop if it is
empty; if the buffer is nonempty, sort it (descending in the source, popping
from the back — equivalently, take the head of the ascending sort), pop and
return the smallest, marking finished when the buffer empties; otherwise
control reaches the end of the function without returning (`noReturn`). -/
def knnNext (ballAt : ℚ → Except FreudError (List (ℕ × ℚ))) (k : ℕ)
    (scale minPlane : ℚ) (fuel : ℕ) (st : KnnState) :
    Option (Except FreudError (KnnOutcome × KnnState)) :=
  if st.finished then some (.ok (.terminator, st))
  else
    match (if st.buffer.isEmpty then
        knnGatherLoop ballAt k scale minPlane fuel st.r
      else some (.ok (st.buffer, st.r))) with
    | none => none
    | some (.error e) => some (.error e)
    | some (.ok (buf, r2)) =>
      match sortByLE neighborPointLE buf with
      | [] => some (.ok (.noReturn, ⟨r2, st.finished, []⟩))
      | ret :: rest => some (.ok (.bond ret, ⟨r2, rest.isEmpty, rest⟩))

/-- Drain the k-NN iterator: call `next()` until it returns the terminator,
collecting the yielded bonds.  An error, a fallthrough (`noReturn`, which is
undefined behavior) or non-termination yields `none`. -/
def knnCollect (ballAt : ℚ → Except FreudError (List (ℕ × ℚ))) (k : ℕ)
    (scale minPlane : ℚ) (fuel : ℕ) :
    ℕ → KnnState → Option (List (ℕ × ℚ))
  | 0, _ => none
  | calls + 1, st =>
    match knnNext ballAt k scale minPlane fuel st with
    | some (.ok (.bond bd, st2)) =>
      (knnCollect ballAt k scale minPlane fuel calls st2).map fun rest =>
        bd :: rest
    | some (.ok (.terminator, _)) => some []
    | _ => none

/-- The ball query performed inside the k-NN loop
(`m_spatial_data->queryBall(m_point, m_r)`, AABBQuery.cc:210): a fresh ball
iterator over the same tree, drained to the terminator. -/
def aabbKnnBallAt (b : Box) (pts : ℕ → Vec3) (t : AABBTree) (q : Vec3) :
    ℚ → Except FreudError (List (ℕ × ℚ)) :=
  fun r => ballQueryBonds b pts t q r

/-- Box for the C2 scenario: 10×10×10, non-periodic, 3D. -/
def c2Box : Box :=
  ⟨⟨10, 0, 0⟩, ⟨0, 10, 0⟩, ⟨0, 0, 10⟩, ⟨10, 10, 10⟩, false, false, false,
    false⟩

/-- Points for the C2 scenario: (0.1,0,0) and (0.2,0,0). -/
def c2Pts : ℕ → Vec3 := fun j =>
  if j = 0 then ⟨1/10, 0, 0⟩ else ⟨2/10, 0, 0⟩

/-- Tree for the C2 scenario: one leaf bucket with both indices. -/
def c2Tree : AABBTree := .leaf [0, 1]

/-- Box for the C5 scenario: unit non-periodic box (empty point set). -/
def c5Box : Box :=
  ⟨⟨1, 0, 0⟩, ⟨0, 1, 0⟩, ⟨0, 0, 1⟩, ⟨1, 1, 1⟩, false, false, false, false⟩

/-! ## QueryArgs and query dispatch (`NeighborQuery.h`) -/

/-- `QueryArgs::QueryType` (NeighborQuery.h:38-43). -/
inductive QueryType where
  | qtNone
  | qtBall
  | qtNearest
deriving DecidableEq, Repr

/-- `QueryArgs` (NeighborQuery.h:29-57): mode, `num_neigh` (int, sentinel
-1), `r_max` (sentinel -1), `scale`, `exclude_ii`. -/
structure QueryArgs where
  mode : QueryType
  numNeigh : ℤ
  rMax : ℚ
  scale : ℚ
  excludeII : Bool
deriving DecidableEq, Repr

/-- The default-constructed `QueryArgs` (NeighborQuery.h:34-35) with the
enumerated defaults of spec §6. -/
def QueryArgs.defaultArgs : QueryArgs := ⟨.qtNone, -1, -1, 11/10, false⟩

/-- `NeighborQuery::inferMode` (NeighborQuery.h:181-195): if no mode is set,
prefer NEAREST when `num_neigh` is set, else BALL when `r_max` is set. -/
def inferMode (args : QueryArgs) : QueryArgs :=
  if args.mode = .qtNone then
    if args.numNeigh ≠ -1 then { args with mode := .qtNearest }
    else if args.rMax ≠ -1 then { args with mode := .qtBall }
    else args
  else args

/-- `NeighborQuery::validateQueryArgs` (NeighborQuery.h:159-173): infer the
mode, then require the inferred mode's parameter to be set. -/
def validateQueryArgs (args : QueryArgs) : Except FreudError QueryArgs :=
  let a := inferMode args
  if a.mode = .qtBall then
    if a.rMax = -1 then .error .invalidQueryArgs else .ok a
  else if a.mode = .qtNearest then
    if a.numNeigh = -1 then .error .invalidQueryArgs else .ok a
  else .ok a

/-- The query issued by `queryWithArgs` (dispatch target and parameters). -/
inductive QueryDispatch where
  | ballQuery (rMax : ℚ) (excludeII : Bool)
  | nearestQuery (numNeigh : ℤ) (excludeII : Bool)
deriving DecidableEq, Repr

/-- `NeighborQuery::queryWithArgs` (NeighborQuery.h:95-111): validate, then
dispatch on the mode; an unresolved mode raises the invalid-arguments
error. -/
def queryWithArgs (args : QueryArgs) : Except FreudError QueryDispatch :=
  match validateQueryArgs args with
  | .error e => .error e
  | .ok a =>
    if a.mode = .qtBall then .ok (.ballQuery a.rMax a.excludeII)
    else if a.mode = .qtNearest then .ok (.nearestQuery a.numNeigh a.excludeII)
    else .error .invalidQueryArgs

/-- A `NeighborQuery` handle: the box and the (externally owned) point
sequence (NeighborQuery.h:72-200). -/
structure NeighborQueryData where
  box : Box
  points : List Vec3
deriving DecidableEq, Repr

/-- `NeighborQuery::operator[]` (NeighborQuery.h:142-149): bounds-checked
point access; throws for `index >= m_n_points`. -/
def NeighborQueryData.getPoint (nq : NeighborQueryData) (index : ℕ) :
    Except FreudError Vec3 :=
  if h : nq.points.length ≤ index then .error .accessOutOfRange
  else .ok (nq.points.get ⟨index, lt_of_not_le h⟩)

/-- `NeighborQueryQueryIterator::toNeighborList` (NeighborQuery.h:360-376):
the `m_k` bookkeeping around the inner materialization.  `inner` is the
parent-class materialization invoked with the current `m_k`; the result pairs
the propagated outcome with the final value of `m_k`. -/
def toNeighborListAdjustK {α : Type} (excludeII : Bool) (k : ℕ)
    (inner : ℕ → Except FreudError α) : Except FreudError α × ℕ :=
  let k2 := if excludeII then k + 1 else k
  match inner k2 with
  | .ok res => (.ok res, k2)
  | .error e => (.error e, if excludeII then k2 - 1 else k2)

/-! ## Materialization and the per-pair driver (`NeighborQuery.h:267-316`,
`NeighborComputeFunctional.h:167-208`) -/

/-- The exact rational value of an IEEE-754 single-precision float whose four
bytes are all `0x01` — what
`memset((void*) neighbor_weights, 1, sizeof(float) * n)`
(NeighborQuery.h:313) actually stores in each weight: bit pattern
`0x01010101`, i.e. `2^(2-127) · (1 + 65793/2^23) = 8454401/2^148 ≈
2.37·10^-38`. -/
def memsetFloatOne : ℚ := 8454401 / 2 ^ 148

/-- Modelled from the spec: `NeighborBond::less_as_tuple`
(`compareNeighborBond`, NeighborList.cc:203-206; header absent) — lexicographic
by (query_idx, distance, point_idx) (§3). -/
def linearBondLE (a bq : ℕ × ℕ × ℚ) : Bool :=
  decide (a.1 < bq.1) || (decide (a.1 = bq.1) && (decide (a.2.2 < bq.2.2) ||
    (decide (a.2.2 = bq.2.2) && decide (a.2.1 ≤ bq.2.1))))

/-- `NeighborQueryIterator::toNeighborList` (NeighborQuery.h:267-316): for
each query point `i`, drain the per-point iterator (`streams i` is its yield
list before the terminator), dropping self pairs when `exclude_ii`; flatten,
sort by the tuple ordering, emit the rows — and fill the weights array with
`memset(..., 1, ...)`, i.e. with `memsetFloatOne`, not `1.0`. -/
def toNeighborListModel (M : ℕ) (excludeII : Bool) (numPoints : ℕ)
    (streams : ℕ → List (ℕ × ℚ)) : NeighborListData :=
  let linear := (List.range M).flatMap fun i =>
    (streams i).filterMap fun pr =>
      if !excludeII || i ≠ pr.1 then some (i, pr.1, pr.2) else none
  ⟨(sortByLE linearBondLE linear).map fun tr =>
      ⟨tr.1, tr.2.1, tr.2.2, memsetFloatOne⟩, M, numPoints⟩

/-- The bond-list path of the per-pair driver (`loopOverNeighbors`,
NeighborComputeFunctional.h:173-187): the sequence of `NeighborBond`s passed
to the compute function — bond `b` is rebuilt from `neighbors[2b]`,
`neighbors[2b+1]`, `distances[b]`, `weights[b]`, i.e. exactly the stored
rows in order. -/
def perPairDriverBonds (nl : NeighborListData) : List NeighborBond := nl.rows

/-- Modelled from the spec: the original iterator stream as full bonds.  The
per-point streams carry (point_idx, distance); a query-produced bond's weight
is 1 (`NeighborBond.h` is absent from `src/`; the materialization's weight
fill intends unit weights, and spec §3 gives bonds unit-weight semantics for
query output).  Self pairs are dropped when `exclude_ii`. -/
def streamBonds (M : ℕ) (excludeII : Bool) (streams : ℕ → List (ℕ × ℚ)) :
    List NeighborBond :=
  (List.range M).flatMap fun i =>
    (streams i).filterMap fun pr =>
      if !excludeII || i ≠ pr.1 then some ⟨i, pr.1, pr.2, 1⟩ else none

/-! ## Claim theorems C2, C3, C5, C6, C7, C8, C9, C10 -/

/-! ## Theorems -/

theorem Vec3.add_def (a b : Vec3) : a + b = ⟨a.x + b.x, a.y + b.y, a.z + b.z⟩ :=
  rfl

theorem Vec3.sub_def (a b : Vec3) : a - b = ⟨a.x - b.x, a.y - b.y, a.z - b.z⟩ :=
  rfl

theorem Vec3.normSq_nonneg (v : Vec3) : 0 ≤ v.normSq := by
  have hx := mul_self_nonneg v.x
  have hy := mul_self_nonneg v.y
  have hz := mul_self_nonneg v.z
  unfold Vec3.normSq; linarith

/-- `normSq (a - b) ≤ 2 * normSq (a - c) + 2 * normSq (c - b)`:
the squared-distance form of the triangle inequality, provable without
square roots. -/
theorem Vec3.normSq_sub_le (a b c : Vec3) :
    Vec3.normSq (a - b) ≤ 2 * Vec3.normSq (a - c) + 2 * Vec3.normSq (c - b) := by
  obtain ⟨ax, ay, az⟩ := a
  obtain ⟨bx, bz, bzz⟩ := b
  obtain ⟨cx, cy, cz⟩ := c
  simp only [Vec3.sub_def, Vec3.normSq]
  nlinarith [sq_nonneg (ax - 2 * cx + bx), sq_nonneg (ay - 2 * cy + bz),
    sq_nonneg (az - 2 * cz + bzz)]

theorem imageTriples_length (b : Box) :
    (imageTriples b).length = 3 ^ nDimPeriodic b := by
  have hfilter : (tripleCandidates.filter (tripleAllowed b)).length =
      3 ^ nDimPeriodic b - 1 := by
    obtain ⟨la, lb, lc, npd, px, py, pz, is2D⟩ := b
    cases px <;> cases py <;> cases pz <;> cases is2D <;> rfl
  have hpos : 1 ≤ 3 ^ nDimPeriodic b := Nat.one_le_pow _ _ (by norm_num)
  simp only [imageTriples, List.length_cons, List.length_take, hfilter,
    min_self]
  omega

theorem imageTriples_take_eq (b : Box) :
    (tripleCandidates.filter (tripleAllowed b)).take (3 ^ nDimPeriodic b - 1) =
      tripleCandidates.filter (tripleAllowed b) := by
  apply List.take_of_length_le
  obtain ⟨la, lb, lc, npd, px, py, pz, is2D⟩ := b
  cases px <;> cases py <;> cases pz <;> cases is2D <;> exact Nat.le_of_eq (by rfl)

theorem inAABB_growAABB_of_inAABB {w : Vec3} {box : AABB} (v : Vec3)
    (h : inAABB w box) : inAABB w (growAABB box v) := by
  obtain ⟨h1, h2, h3, h4, h5, h6⟩ := h
  refine ⟨?_, ?_, ?_, ?_, ?_, ?_⟩ <;>
    simp only [growAABB, min_le_iff, le_max_iff] <;> tauto

theorem inAABB_growAABB_self (box : AABB) (v : Vec3) :
    inAABB v (growAABB box v) := by
  refine ⟨?_, ?_, ?_, ?_, ?_, ?_⟩ <;>
    simp only [growAABB, min_le_iff, le_max_iff, le_refl, or_true, true_or]

theorem inAABB_foldl_of_inAABB (p : ℕ → Vec3) {w : Vec3} :
    ∀ (l : List ℕ) (acc : AABB), inAABB w acc →
      inAABB w (l.foldl (fun acc u => growAABB acc (p u)) acc)
  | [], _, h => h
  | u :: us, _, h =>
    inAABB_foldl_of_inAABB p us _ (inAABB_growAABB_of_inAABB (p u) h)

theorem inAABB_foldl_of_mem (p : ℕ → Vec3) :
    ∀ (l : List ℕ) (acc : AABB) (u : ℕ), u ∈ l →
      inAABB (p u) (l.foldl (fun acc v => growAABB acc (p v)) acc)
  | v :: vs, acc, u, h => by
    rcases List.mem_cons.mp h with h | h
    · subst h
      exact inAABB_foldl_of_inAABB p vs _ (inAABB_growAABB_self acc (p u))
    · exact inAABB_foldl_of_mem p vs _ u h

theorem inAABB_aabbOfTags (p : ℕ → Vec3) {tags : List ℕ} {u : ℕ}
    (h : u ∈ tags) : inAABB (p u) (aabbOfTags p tags) := by
  match tags, h with
  | t :: ts, h =>
    rcases List.mem_cons.mp h with h | h
    · subst h
      exact inAABB_foldl_of_inAABB p ts _
        ⟨le_refl _, le_refl _, le_refl _, le_refl _, le_refl _, le_refl _⟩
    · exact inAABB_foldl_of_mem p ts _ u h

theorem axDist_mul_self_le {c lo hi v : ℚ} (h1 : lo ≤ v) (h2 : v ≤ hi) :
    axDist c lo hi * axDist c lo hi ≤ (v - c) * (v - c) := by
  have hb : axDist c lo hi ≤ |v - c| := by
    apply max_le
    · exact le_trans (by linarith) (le_abs_self _)
    · apply max_le
      · calc c - hi ≤ c - v := by linarith
          _ ≤ |c - v| := le_abs_self _
          _ = |v - c| := abs_sub_comm c v
      · exact abs_nonneg _
  have h0 : (0 : ℚ) ≤ axDist c lo hi :=
    le_trans (le_max_right _ _) (le_max_right _ _)
  calc axDist c lo hi * axDist c lo hi ≤ |v - c| * |v - c| :=
        mul_self_le_mul_self h0 hb
    _ = (v - c) * (v - c) := abs_mul_abs_self _

/-- If a point lies inside an AABB, the squared point-to-box distance from any
center is a lower bound on the squared center-to-point distance. -/
theorem distSqPointAABB_le_normSq {v : Vec3} {box : AABB} (c : Vec3)
    (h : inAABB v box) : distSqPointAABB c box ≤ Vec3.normSq (v - c) := by
  obtain ⟨h1, h2, h3, h4, h5, h6⟩ := h
  have hx := axDist_mul_self_le (c := c.x) h1 h2
  have hy := axDist_mul_self_le (c := c.y) h3 h4
  have hz := axDist_mul_self_le (c := c.z) h5 h6
  simp only [distSqPointAABB, Vec3.normSq, Vec3.sub_def]
  linarith

theorem traverseLoopF_congr (p : ℕ → Vec3) (c : Vec3) (rSq : ℚ) :
    ∀ (fuel1 fuel2 : ℕ) (nodes : List TreeNode), nodes.length ≤ fuel1 →
      nodes.length ≤ fuel2 →
      traverseLoopF p c rSq fuel1 nodes = traverseLoopF p c rSq fuel2 nodes := by
  intro fuel1
  induction fuel1 with
  | zero =>
    intro fuel2 nodes h1 h2
    have : nodes = [] := List.eq_nil_of_length_eq_zero (Nat.le_zero.mp h1)
    subst this
    cases fuel2 <;> rfl
  | succ f ih =>
    intro fuel2 nodes h1 h2
    cases nodes with
    | nil => cases fuel2 <;> rfl
    | cons n rest =>
      cases fuel2 with
      | zero => exact absurd h2 (by simp)
      | succ f2 =>
        simp only [List.length_cons, Nat.add_le_add_iff_right] at h1 h2
        simp only [traverseLoopF]
        split
        · rw [ih f2 rest h1 h2]
        · exact ih f2 (rest.drop n.skip)
            (le_trans (by simp only [List.length_drop]; omega) h1)
            (le_trans (by simp only [List.length_drop]; omega) h2)

theorem traverseLoopF_flatten (p : ℕ → Vec3) (c : Vec3) (rSq : ℚ) :
    ∀ (t : AABBTree) (rest : List TreeNode) (fuel : ℕ),
      (flatten p t).length + rest.length ≤ fuel →
      traverseLoopF p c rSq fuel (flatten p t ++ rest) =
        structTraverse p c rSq t ++
          traverseLoopF p c rSq rest.length rest := by
  intro t
  induction t with
  | leaf tags =>
    intro rest fuel hfuel
    simp only [flatten, List.length_cons, List.length_nil] at hfuel
    cases fuel with
    | zero => exact absurd hfuel (by omega)
    | succ f =>
      have hr : rest.length ≤ f := by omega
      simp only [flatten, List.cons_append, List.append_eq, List.nil_append,
        structTraverse, traverseLoopF]
      split
      · rw [traverseLoopF_congr p c rSq f rest.length rest hr (le_refl _)]
        simp
      · simp only [List.drop_zero, List.nil_append]
        exact traverseLoopF_congr p c rSq f rest.length rest hr (le_refl _)
  | node l r ihl ihr =>
    intro rest fuel hfuel
    simp only [flatten, List.length_cons, List.length_append] at hfuel
    cases fuel with
    | zero => exact absurd hfuel (by omega)
    | succ f =>
      simp only [flatten, List.cons_append, List.append_eq, List.append_assoc,
        structTraverse, traverseLoopF]
      split
      · rw [ihl (flatten p r ++ rest) f
            (by simp only [List.length_append]; omega),
          ihr rest (flatten p r ++ rest).length
            (by simp only [List.length_append]; exact le_refl _)]
        simp [List.append_assoc]
      · rw [← List.append_assoc, ← List.length_append, List.drop_left,
          List.nil_append]
        exact traverseLoopF_congr p c rSq f rest.length rest (by omega)
          (le_refl _)

theorem filterMap_tags_eq_nil (p : ℕ → Vec3) (c : Vec3) (rSq : ℚ)
    (tags : List ℕ) (hov : ¬ overlapB (aabbOfTags p tags) c rSq = true) :
    (tags.filterMap fun j =>
      if Vec3.normSq (p j - c) < rSq then some (j, Vec3.normSq (p j - c))
      else none) = [] := by
  rw [List.filterMap_eq_nil_iff]
  intro j hj
  have hle := distSqPointAABB_le_normSq c (inAABB_aabbOfTags p hj)
  have hgt : rSq < distSqPointAABB c (aabbOfTags p tags) :=
    not_le.mp (by simpa [overlapB] using hov)
  rw [if_neg (not_lt.mpr (le_trans (le_of_lt hgt) hle))]

/-- The traversal for one image yields exactly the tags whose (effective)
position lies strictly within the cutoff of the center, each with its squared
distance, in tag order. -/
theorem structTraverse_eq (p : ℕ → Vec3) (c : Vec3) (rSq : ℚ) (t : AABBTree) :
    structTraverse p c rSq t =
      (treeTags t).filterMap fun j =>
        if Vec3.normSq (p j - c) < rSq then some (j, Vec3.normSq (p j - c))
        else none := by
  induction t with
  | leaf tags =>
    simp only [structTraverse, treeTags]
    split
    · rfl
    · next hov => exact (filterMap_tags_eq_nil p c rSq tags hov).symm
  | node l r ihl ihr =>
    simp only [structTraverse, treeTags]
    split
    · rw [ihl, ihr, List.filterMap_append]
    · next hov =>
      exact (filterMap_tags_eq_nil p c rSq (treeTags l ++ treeTags r) hov).symm

theorem foldl_min_le_init : ∀ (xs : List ℚ) (c : ℚ), xs.foldl min c ≤ c
  | [], _ => le_refl _
  | x :: xs, c => le_trans (foldl_min_le_init xs (min c x)) (min_le_left _ _)

theorem foldl_min_le_mem :
    ∀ (xs : List ℚ) (c a : ℚ), a ∈ xs → xs.foldl min c ≤ a
  | x :: xs, c, a, h => by
    rcases List.mem_cons.mp h with h | h
    · subst h
      exact le_trans (foldl_min_le_init xs (min c a)) (min_le_right _ _)
    · exact foldl_min_le_mem xs (min c x) a h

theorem foldl_min_mem_or :
    ∀ (xs : List ℚ) (c : ℚ), xs.foldl min c = c ∨ xs.foldl min c ∈ xs
  | [], c => Or.inl rfl
  | x :: xs, c => by
    rcases foldl_min_mem_or xs (min c x) with h | h
    · rcases min_choice c x with hm | hm
      · exact Or.inl (h.trans hm)
      · exact Or.inr (List.mem_cons.mpr (Or.inl (h.trans hm)))
    · exact Or.inr (List.mem_cons.mpr (Or.inr h))

theorem minq_le_of_mem {l : List ℚ} {a : ℚ} (h : a ∈ l) : minq l ≤ a := by
  match l, h with
  | x :: xs, h =>
    rcases List.mem_cons.mp h with h | h
    · subst h; exact foldl_min_le_init xs a
    · exact foldl_min_le_mem xs x a h

theorem minq_mem {l : List ℚ} (h : l ≠ []) : minq l ∈ l := by
  match l with
  | x :: xs =>
    rcases foldl_min_mem_or xs x with h | h
    · exact List.mem_cons.mpr (Or.inl h)
    · exact List.mem_cons.mpr (Or.inr h)

theorem tripleCandidates_nodup : tripleCandidates.Nodup := by decide

theorem imageTriples_nodup (b : Box) : (imageTriples b).Nodup := by
  have h1 : (tripleCandidates.filter (tripleAllowed b)).Nodup :=
    tripleCandidates_nodup.filter _
  have h2 : ((tripleCandidates.filter (tripleAllowed b)).take
      (3 ^ nDimPeriodic b - 1)).Nodup :=
    h1.sublist (List.take_sublist _ _)
  refine List.nodup_cons.mpr ⟨?_, h2⟩
  intro hmem
  have := List.mem_filter.mp ((List.take_subset _ _) hmem)
  simp [tripleAllowed] at this

theorem mem_imageTriples_allowed {b : Box} {t : Int × Int × Int}
    (h : t ∈ imageTriples b) :
    (t.1 ≠ 0 → b.px = true) ∧ (t.2.1 ≠ 0 → b.py = true) ∧
      (t.2.2 ≠ 0 → b.pz = true ∧ b.is2D = false) := by
  rcases List.mem_cons.mp h with h | h
  · subst h
    refine ⟨fun h => absurd rfl h, fun h => absurd rfl h, fun h => absurd rfl h⟩
  · have hall := (List.mem_filter.mp ((List.take_subset _ _) h)).2
    refine ⟨?_, ?_, ?_⟩
    · intro hne
      by_contra hpx
      rw [Bool.not_eq_true] at hpx
      simp [tripleAllowed, hpx, hne] at hall
    · intro hne
      by_contra hpy
      rw [Bool.not_eq_true] at hpy
      simp [tripleAllowed, hpy, hne] at hall
    · intro hne
      constructor
      · by_contra hpz
        rw [Bool.not_eq_true] at hpz
        simp [tripleAllowed, hpz, hne] at hall
      · by_contra h2d
        rw [Bool.not_eq_false] at h2d
        simp [tripleAllowed, h2d, hne] at hall

theorem boxTooSmallCheck_false {b : Box} {r : ℚ}
    (h : boxTooSmallCheck b r = false) :
    (b.px = true → r * 2 < b.nearestPlaneDistance.x) ∧
      (b.py = true → r * 2 < b.nearestPlaneDistance.y) ∧
      (b.is2D = false → b.pz = true → r * 2 < b.nearestPlaneDistance.z) := by
  refine ⟨?_, ?_, ?_⟩
  · intro hp
    by_contra hlt
    rw [not_lt] at hlt
    simp [boxTooSmallCheck, hp, hlt] at h
  · intro hp
    by_contra hlt
    rw [not_lt] at hlt
    simp [boxTooSmallCheck, hp, hlt] at h
  · intro h2 hp
    by_contra hlt
    rw [not_lt] at hlt
    simp [boxTooSmallCheck, h2, hp, hlt] at h

theorem latticeVector_zero (b : Box) : b.latticeVector 0 = b.latA := rfl

theorem latticeVector_one (b : Box) : b.latticeVector 1 = b.latB := rfl

theorem latticeVector_two (b : Box) : b.latticeVector 2 = b.latC := rfl

theorem dot_zero_left (v : Vec3) : Vec3.dot Vec3.zero v = 0 := by
  simp [Vec3.dot, Vec3.zero]

theorem dot_cross_self_left (u v : Vec3) : Vec3.dot u (Vec3.cross u v) = 0 := by
  obtain ⟨ux, uy, uz⟩ := u
  obtain ⟨vx, vy, vz⟩ := v
  simp only [Vec3.dot, Vec3.cross]
  ring

theorem dot_cross_self_right (u v : Vec3) :
    Vec3.dot v (Vec3.cross u v) = 0 := by
  obtain ⟨ux, uy, uz⟩ := u
  obtain ⟨vx, vy, vz⟩ := v
  simp only [Vec3.dot, Vec3.cross]
  ring

/-- Cyclic invariance of the scalar triple product: `b·(c×a) = a·(b×c)`. -/
theorem triple_product_rot (u v w : Vec3) :
    Vec3.dot v (Vec3.cross w u) = Vec3.dot u (Vec3.cross v w) := by
  obtain ⟨ux, uy, uz⟩ := u
  obtain ⟨vx, vy, vz⟩ := v
  obtain ⟨wx, wy, wz⟩ := w
  simp only [Vec3.dot, Vec3.cross]
  ring

/-- Cyclic invariance of the scalar triple product: `c·(a×b) = a·(b×c)`. -/
theorem triple_product_rot2 (u v w : Vec3) :
    Vec3.dot w (Vec3.cross u v) = Vec3.dot u (Vec3.cross v w) := by
  obtain ⟨ux, uy, uz⟩ := u
  obtain ⟨vx, vy, vz⟩ := v
  obtain ⟨wx, wy, wz⟩ := w
  simp only [Vec3.dot, Vec3.cross]
  ring

/-- Cauchy-Schwarz over ℚ in three dimensions, via the Lagrange identity
`(u·v)² + |u×v|² = |u|²·|v|²`. -/
theorem dot_sq_le (u v : Vec3) :
    Vec3.dot u v * Vec3.dot u v ≤ Vec3.normSq u * Vec3.normSq v := by
  have h := Vec3.normSq_nonneg (Vec3.cross u v)
  have hl : Vec3.dot u v * Vec3.dot u v + Vec3.normSq (Vec3.cross u v) =
      Vec3.normSq u * Vec3.normSq v := by
    obtain ⟨ux, uy, uz⟩ := u
    obtain ⟨vx, vy, vz⟩ := v
    simp only [Vec3.dot, Vec3.cross, Vec3.normSq]
    ring
  linarith

/-- The inner product of an image-shift difference against any vector,
expanded over the integer coefficients and the (2D-zeroed) lattice
vectors. -/
theorem imageShift_sub_dot (b : Box) (t1 t2 : Int × Int × Int) (n : Vec3) :
    Vec3.dot (imageShift b t1 - imageShift b t2) n =
      ((t1.1 : ℚ) - (t2.1 : ℚ)) * Vec3.dot (b.latticeVector 0) n +
        ((t1.2.1 : ℚ) - (t2.2.1 : ℚ)) * Vec3.dot (b.latticeVector 1) n +
        ((t1.2.2 : ℚ) - (t2.2.2 : ℚ)) *
          Vec3.dot (if b.is2D = true then Vec3.zero else b.latticeVector 2) n := by
  obtain ⟨nx, ny, nz⟩ := n
  simp only [imageShift, Vec3.dot, Vec3.sub_def]
  ring

/-- Projection bound: if the plane distance `pd` for an axis satisfies the
spec's squared derivation against the face normal `n`, the cell has nonzero
volume along that axis, and a vector `v` projects onto `n` as a nonzero
integer multiple of the axis projection, then `|v|² ≥ pd² > (2r)²`. -/
theorem proj_sep {r pd : ℚ} (hr : 0 ≤ r) (hpd : r * 2 < pd) {d : ℤ}
    (hd : d ≠ 0) {v axis n : Vec3}
    (hproj : Vec3.dot v n = (d : ℚ) * Vec3.dot axis n)
    (hwf : pd * pd * Vec3.normSq n = Vec3.dot axis n * Vec3.dot axis n)
    (hvol : Vec3.dot axis n ≠ 0) :
    (r * 2) * (r * 2) < Vec3.normSq v := by
  have hN : Vec3.normSq n ≠ 0 := by
    intro h0
    apply hvol
    have hcs := dot_sq_le axis n
    rw [h0, mul_zero] at hcs
    exact mul_self_eq_zero.mp (le_antisymm hcs (mul_self_nonneg _))
  have hNpos : 0 < Vec3.normSq n :=
    lt_of_le_of_ne (Vec3.normSq_nonneg n) (Ne.symm hN)
  have hd2 : (1 : ℚ) ≤ (d : ℚ) * (d : ℚ) := by
    have h1 : (1 : ℤ) ≤ d * d := by
      rcases lt_or_gt_of_ne hd with h | h
      · nlinarith
      · nlinarith
    exact_mod_cast h1
  have hcs := dot_sq_le v n
  rw [hproj] at hcs
  have key : pd * pd * Vec3.normSq n ≤ Vec3.normSq v * Vec3.normSq n := by
    calc pd * pd * Vec3.normSq n
        = Vec3.dot axis n * Vec3.dot axis n := hwf
      _ ≤ ((d : ℚ) * (d : ℚ)) * (Vec3.dot axis n * Vec3.dot axis n) :=
          le_mul_of_one_le_left (mul_self_nonneg _) hd2
      _ = ((d : ℚ) * Vec3.dot axis n) * ((d : ℚ) * Vec3.dot axis n) := by ring
      _ ≤ Vec3.normSq v * Vec3.normSq n := hcs
  have hle : pd * pd ≤ Vec3.normSq v := le_of_mul_le_mul_right key hNpos
  nlinarith [hle, hpd, hr]

/-- Distinct enumerated images are more than `2r` apart (squared form) when
the image-vector check accepts the nonnegative radius `r` on a well-formed
(generally triclinic) box: project the shift difference onto the face normal
of the axis whose coefficient differs; that axis is periodic, so its plane
distance exceeds `2r`. -/
theorem image_separation (b : Box) {r : ℚ} (hr : 0 ≤ r)
    (hwf : Box.wellFormed b) (hchk : boxTooSmallCheck b r = false)
    {t1 t2 : Int × Int × Int}
    (h1 : t1 ∈ imageTriples b) (h2 : t2 ∈ imageTriples b) (hne : t1 ≠ t2) :
    (r * 2) * (r * 2) < Vec3.normSq (imageShift b t1 - imageShift b t2) := by
  obtain ⟨hvol, hwx, hwy, hwz⟩ := hwf
  obtain ⟨hcx, hcy, hcz⟩ := boxTooSmallCheck_false hchk
  obtain ⟨ha1x, ha1y, ha1z⟩ := mem_imageTriples_allowed h1
  obtain ⟨ha2x, ha2y, ha2z⟩ := mem_imageTriples_allowed h2
  obtain ⟨a1, b1, c1⟩ := t1
  obtain ⟨a2, b2, c2⟩ := t2
  simp only at ha1x ha1y ha1z ha2x ha2y ha2z
  have hdiff : a1 ≠ a2 ∨ b1 ≠ b2 ∨ c1 ≠ c2 := by
    by_contra hcon
    push_neg at hcon
    exact hne (by rw [hcon.1, hcon.2.1, hcon.2.2])
  rcases hdiff with hd | hd | hd
  · -- coefficients on `a` differ: project onto the (b, c) face normal
    have hpx : b.px = true := by
      rcases (by omega : a1 ≠ 0 ∨ a2 ≠ 0) with h | h
      · exact ha1x h
      · exact ha2x h
    have hproj : Vec3.dot (imageShift b (a1, b1, c1) - imageShift b (a2, b2, c2))
        (Vec3.cross b.latB b.latC) =
        ((a1 - a2 : ℤ) : ℚ) * Vec3.dot b.latA (Vec3.cross b.latB b.latC) := by
      rw [imageShift_sub_dot, latticeVector_zero, latticeVector_one,
        dot_cross_self_left]
      have hc0 : Vec3.dot (if b.is2D = true then Vec3.zero else b.latticeVector 2)
          (Vec3.cross b.latB b.latC) = 0 := by
        cases h2d : b.is2D
        · rw [if_neg (by simp), latticeVector_two]
          exact dot_cross_self_right _ _
        · rw [if_pos rfl]
          exact dot_zero_left _
      rw [hc0]
      push_cast
      ring
    exact proj_sep hr (hcx hpx) (sub_ne_zero.mpr hd) hproj hwx hvol
  · -- coefficients on `b` differ: project onto the (c, a) face normal
    have hpy : b.py = true := by
      rcases (by omega : b1 ≠ 0 ∨ b2 ≠ 0) with h | h
      · exact ha1y h
      · exact ha2y h
    have hvol2 : Vec3.dot b.latB (Vec3.cross b.latC b.latA) ≠ 0 := by
      rw [triple_product_rot]
      exact hvol
    have hproj : Vec3.dot (imageShift b (a1, b1, c1) - imageShift b (a2, b2, c2))
        (Vec3.cross b.latC b.latA) =
        ((b1 - b2 : ℤ) : ℚ) * Vec3.dot b.latB (Vec3.cross b.latC b.latA) := by
      rw [imageShift_sub_dot, latticeVector_zero, latticeVector_one,
        dot_cross_self_right]
      have hc0 : Vec3.dot (if b.is2D = true then Vec3.zero else b.latticeVector 2)
          (Vec3.cross b.latC b.latA) = 0 := by
        cases h2d : b.is2D
        · rw [if_neg (by simp), latticeVector_two]
          exact dot_cross_self_left _ _
        · rw [if_pos rfl]
          exact dot_zero_left _
      rw [hc0]
      push_cast
      ring
    exact proj_sep hr (hcy hpy) (sub_ne_zero.mpr hd) hproj hwy hvol2
  · -- coefficients on `c` differ (so the box is 3D and z-periodic):
    -- project onto the (a, b) face normal
    have hz : b.pz = true ∧ b.is2D = false := by
      rcases (by omega : c1 ≠ 0 ∨ c2 ≠ 0) with h | h
      · exact ha1z h
      · exact ha2z h
    have h2d : b.is2D = false := hz.2
    have hvol3 : Vec3.dot b.latC (Vec3.cross b.latA b.latB) ≠ 0 := by
      rw [triple_product_rot2]
      exact hvol
    have hproj : Vec3.dot (imageShift b (a1, b1, c1) - imageShift b (a2, b2, c2))
        (Vec3.cross b.latA b.latB) =
        ((c1 - c2 : ℤ) : ℚ) * Vec3.dot b.latC (Vec3.cross b.latA b.latB) := by
      rw [imageShift_sub_dot, latticeVector_zero, latticeVector_one,
        dot_cross_self_left, dot_cross_self_right, h2d]
      rw [if_neg (by simp), latticeVector_two]
      push_cast
      ring
    exact proj_sep hr (hcz h2d hz.1) (sub_ne_zero.mpr hd) hproj hwz hvol3

theorem normSq_sub_zero (v : Vec3) :
    Vec3.normSq (v - Vec3.zero) = Vec3.normSq v := by
  simp [Vec3.normSq, Vec3.sub_def, Vec3.zero]

theorem normSq_zero_sub (v : Vec3) :
    Vec3.normSq (Vec3.zero - v) = Vec3.normSq v := by
  simp [Vec3.normSq, Vec3.sub_def, Vec3.zero]

/-- At most one enumerated image of the query point is strictly within `r`
of any given point position. -/
theorem not_two_hits (b : Box) {r : ℚ} (hr : 0 ≤ r)
    (hwf : Box.wellFormed b) (hchk : boxTooSmallCheck b r = false)
    {t1 t2 : Int × Int × Int}
    (h1 : t1 ∈ imageTriples b) (h2 : t2 ∈ imageTriples b) (hne : t1 ≠ t2)
    (v c : Vec3) (hh1 : Vec3.normSq (v - (c + imageShift b t1)) < r * r)
    (hh2 : Vec3.normSq (v - (c + imageShift b t2)) < r * r) : False := by
  have hsep := image_separation b hr hwf hchk h1 h2 hne
  have he : imageShift b t1 - imageShift b t2 =
      (v - (c + imageShift b t2)) - (v - (c + imageShift b t1)) := by
    simp only [Vec3.sub_def, Vec3.add_def, Vec3.mk.injEq]
    refine ⟨by ring, by ring, by ring⟩
  rw [he] at hsep
  have hb := Vec3.normSq_sub_le (v - (c + imageShift b t2))
    (v - (c + imageShift b t1)) Vec3.zero
  rw [normSq_sub_zero, normSq_zero_sub] at hb
  have h4 : (r * 2) * (r * 2) = 4 * (r * r) := by ring
  linarith

theorem filterMap_if_eq_map_filter {α β : Type} (P : α → Prop)
    [DecidablePred P] (f : α → β) :
    ∀ l : List α, (l.filterMap fun a => if P a then some (f a) else none) =
      (l.filter fun a => decide (P a)).map f
  | [] => rfl
  | a :: l => by
    by_cases h : P a <;>
      simp [List.filterMap_cons, List.filter_cons, h,
        filterMap_if_eq_map_filter P f l]

/-- For a nonempty duplicate-free list on which at most one element can
satisfy the strict threshold, selecting the sub-threshold values yields the
singleton of the minimum when the minimum is sub-threshold, else nothing. -/
theorem unique_hit_filterMap {α β : Type} [DecidableEq α] {l : List α}
    (hnodup : l.Nodup) (hne : l ≠ []) (D : α → ℚ) (rSq : ℚ)
    (hsep : ∀ a1 ∈ l, ∀ a2 ∈ l, a1 ≠ a2 → ¬(D a1 < rSq ∧ D a2 < rSq))
    (f : ℚ → β) :
    (l.filterMap fun a => if D a < rSq then some (f (D a)) else none) =
      if minq (l.map D) < rSq then [f (minq (l.map D))] else [] := by
  rw [filterMap_if_eq_map_filter (fun a => D a < rSq) (fun a => f (D a))]
  by_cases hlt : minq (l.map D) < rSq
  · rw [if_pos hlt]
    have hmapne : l.map D ≠ [] := fun h => hne (List.map_eq_nil_iff.mp h)
    obtain ⟨a0, ha0l, ha0⟩ := List.mem_map.mp (minq_mem hmapne)
    have ha0f : a0 ∈ l.filter fun a => decide (D a < rSq) :=
      List.mem_filter.mpr ⟨ha0l, by simp [ha0, hlt]⟩
    obtain ⟨x, rest, hx⟩ :=
      List.exists_cons_of_ne_nil (List.ne_nil_of_mem ha0f)
    have hxf : x ∈ l.filter fun a => decide (D a < rSq) := by
      rw [hx]; exact List.mem_cons_self x rest
    have hxl : x ∈ l := (List.mem_filter.mp hxf).1
    have hxhit : D x < rSq := by simpa using (List.mem_filter.mp hxf).2
    have hrest : rest = [] := by
      cases rest with
      | nil => rfl
      | cons y ys =>
        have hyf : y ∈ l.filter fun a => decide (D a < rSq) := by
          rw [hx]; exact List.mem_cons.mpr (Or.inr (List.mem_cons_self y ys))
        have hyl : y ∈ l := (List.mem_filter.mp hyf).1
        have hyhit : D y < rSq := by simpa using (List.mem_filter.mp hyf).2
        have hnd := hnodup.filter fun a => decide (D a < rSq)
        rw [hx] at hnd
        have hxy : x ≠ y := by
          intro e
          exact (List.nodup_cons.mp hnd).1 (e ▸ List.mem_cons_self y ys)
        exact absurd ⟨hxhit, hyhit⟩ (hsep x hxl y hyl hxy)
    have ha0x : a0 = x := by
      have h := ha0f
      rw [hx, hrest] at h
      simpa using h
    rw [hx, hrest, List.map_cons, List.map_nil, ← ha0x, ha0]
  · rw [if_neg hlt]
    have hemp : (l.filter fun a => decide (D a < rSq)) = [] := by
      rw [List.filter_eq_nil_iff]
      intro a hal
      simp only [decide_eq_true_eq]
      intro hahit
      exact hlt (lt_of_le_of_lt
        (minq_le_of_mem (List.mem_map.mpr ⟨a, hal, rfl⟩)) hahit)
    rw [hemp, List.map_nil]

theorem coe_filterMap_eq_bind {α β : Type} (g : α → Option β) :
    ∀ l : List α, (↑(l.filterMap g) : Multiset β) =
      Multiset.bind (↑l : Multiset α) fun a => (g a).elim 0 fun x => {x}
  | [] => by simp
  | a :: l => by
    cases hga : g a <;>
      simp [List.filterMap_cons, hga, coe_filterMap_eq_bind g l,
        ← Multiset.cons_coe, Multiset.cons_bind]

theorem flatMap_if_singleton {α β : Type} (P : α → Prop) [DecidablePred P]
    (f : α → β) :
    ∀ l : List α, (l.flatMap fun a => if P a then [f a] else []) =
      l.filterMap fun a => if P a then some (f a) else none
  | [] => rfl
  | a :: l => by
    by_cases h : P a <;>
      simp [List.flatMap_cons, List.filterMap_cons, h,
        flatMap_if_singleton P f l]

theorem traverseLoop_flatten_eq (pe : ℕ → Vec3) (cc : Vec3) (rSq : ℚ)
    (t : AABBTree) :
    traverseLoop pe cc rSq (flatten pe t) =
      (treeTags t).filterMap fun j =>
        if Vec3.normSq (pe j - cc) < rSq then
          some (j, Vec3.normSq (pe j - cc)) else none := by
  have h := traverseLoopF_flatten pe cc rSq t [] (flatten pe t).length
    (by simp)
  rw [List.append_nil] at h
  rw [traverseLoop, h, structTraverse_eq]
  simp [traverseLoopF]

/-- Core of the ball-query completeness argument, for arbitrary effective
positions `pe` and effective query point `qe`: the multiset of bonds
collected over all enumerated images equals one bond per in-range point
index, carrying the image-minimal squared distance. -/
theorem ball_multiset_core (b : Box) (pe : ℕ → Vec3) (N : ℕ) (t : AABBTree)
    (qe : Vec3) (r : ℚ) (hr : 0 ≤ r) (hwf : Box.wellFormed b)
    (hchk : boxTooSmallCheck b r = false)
    (htags : (treeTags t).Perm (List.range N)) :
    (↑(((imageTriples b).map (imageShift b)).flatMap fun s =>
        traverseLoop pe (qe + s) (r * r) (flatten pe t)) : Multiset (ℕ × ℚ)) =
      ↑((List.range N).filterMap fun j =>
        if minq ((imageTriples b).map fun tr =>
            Vec3.normSq (pe j - (qe + imageShift b tr))) < r * r then
          some (j, minq ((imageTriples b).map fun tr =>
            Vec3.normSq (pe j - (qe + imageShift b tr)))) else none) := by
  calc (↑(((imageTriples b).map (imageShift b)).flatMap fun s =>
          traverseLoop pe (qe + s) (r * r) (flatten pe t)) : Multiset (ℕ × ℚ))
      = Multiset.bind ↑((imageTriples b).map (imageShift b)) fun s =>
          ↑(traverseLoop pe (qe + s) (r * r) (flatten pe t)) :=
        (Multiset.coe_bind _ _).symm
    _ = Multiset.bind ↑(imageTriples b) fun tr =>
          ↑(traverseLoop pe (qe + imageShift b tr) (r * r) (flatten pe t)) := by
        rw [← Multiset.map_coe, Multiset.bind_map]
    _ = Multiset.bind ↑(imageTriples b) fun tr =>
          ↑((List.range N).filterMap fun j =>
            if Vec3.normSq (pe j - (qe + imageShift b tr)) < r * r then
              some (j, Vec3.normSq (pe j - (qe + imageShift b tr)))
            else none) := by
        apply congrArg
        funext tr
        rw [traverseLoop_flatten_eq]
        exact Multiset.coe_eq_coe.mpr (htags.filterMap _)
    _ = Multiset.bind ↑(imageTriples b) fun tr =>
          Multiset.bind ↑(List.range N) fun j =>
            (if Vec3.normSq (pe j - (qe + imageShift b tr)) < r * r then
                (some (j, Vec3.normSq (pe j - (qe + imageShift b tr))) :
                  Option (ℕ × ℚ))
              else none).elim 0 fun x => {x} := by
        apply congrArg
        funext tr
        exact coe_filterMap_eq_bind _ _
    _ = Multiset.bind ↑(List.range N) fun j =>
          Multiset.bind ↑(imageTriples b) fun tr =>
            (if Vec3.normSq (pe j - (qe + imageShift b tr)) < r * r then
                (some (j, Vec3.normSq (pe j - (qe + imageShift b tr))) :
                  Option (ℕ × ℚ))
              else none).elim 0 fun x => {x} :=
        Multiset.bind_bind _ _
    _ = Multiset.bind ↑(List.range N) fun j =>
          ↑((imageTriples b).filterMap fun tr =>
            if Vec3.normSq (pe j - (qe + imageShift b tr)) < r * r then
              some (j, Vec3.normSq (pe j - (qe + imageShift b tr)))
            else none) := by
        apply congrArg
        funext j
        exact (coe_filterMap_eq_bind _ _).symm
    _ = Multiset.bind ↑(List.range N) fun j =>
          ↑(if minq ((imageTriples b).map fun tr =>
              Vec3.normSq (pe j - (qe + imageShift b tr))) < r * r then
            [(j, minq ((imageTriples b).map fun tr =>
              Vec3.normSq (pe j - (qe + imageShift b tr))))]
          else ([] : List (ℕ × ℚ))) := by
        apply congrArg
        funext j
        apply congrArg
        refine unique_hit_filterMap (imageTriples_nodup b)
          (List.cons_ne_nil _ _)
          (fun tr => Vec3.normSq (pe j - (qe + imageShift b tr))) (r * r)
          ?_ fun d => (j, d)
        intro t1 h1 t2 h2 hne hboth
        exact not_two_hits b hr hwf hchk h1 h2 hne (pe j) qe hboth.1 hboth.2
    _ = ↑((List.range N).flatMap fun j =>
          if minq ((imageTriples b).map fun tr =>
              Vec3.normSq (pe j - (qe + imageShift b tr))) < r * r then
            [(j, minq ((imageTriples b).map fun tr =>
              Vec3.normSq (pe j - (qe + imageShift b tr))))]
          else []) := Multiset.coe_bind _ _
    _ = ↑((List.range N).filterMap fun j =>
          if minq ((imageTriples b).map fun tr =>
              Vec3.normSq (pe j - (qe + imageShift b tr))) < r * r then
            some (j, minq ((imageTriples b).map fun tr =>
              Vec3.normSq (pe j - (qe + imageShift b tr)))) else none) := by
        apply congrArg
        exact flatMap_if_singleton _ _ _

/-- **C1** — Ball query completeness: for every box (a generally triclinic
parallelepipedal cell of three lattice vectors with nonzero volume, carrying
the spec's derived nearest-plane distances — `Box.wellFormed`), every point
set, query point `q` and radius `r` accepted by the image-vector check
(radii are nonnegative: spec §3 declares `r_max ≥ 0`), and every AABB tree
holding each point index exactly once, the multiset of bonds yielded by
`AABBQueryBallIterator::next` before it returns the terminator equals
`{(j, d) : d = |wrap(p_j − q)| < r}` where the wrap ranges over the
enumerated image set — exactly one bond per qualifying point index, carrying
its minimum-image distance, with strict inequality.  Distances are
represented by their squares (`d < r ↔ d² < r²` on nonnegative values). -/
theorem c1_ball_query_completeness (b : Box) (pts : ℕ → Vec3) (N : ℕ)
    (t : AABBTree) (q : Vec3) (r : ℚ) (hr : 0 ≤ r)
    (hwf : Box.wellFormed b)
    (hchk : boxTooSmallCheck b r = false)
    (htags : (treeTags t).Perm (List.range N)) :
    ∃ bonds, ballQueryBonds b pts t q r = .ok bonds ∧
      (↑bonds : Multiset (ℕ × ℚ)) = ↑(ballClaimBonds b pts N q r) := by
  refine ⟨_, ?_,
    ball_multiset_core b (effPts b pts) N t (b.effective q) r hr hwf hchk
      htags⟩
  simp [ballQueryBonds, updateImageVectors, hchk, Except.map]

/-- Witness for C1 at spec scenario S1 (unit non-periodic box, three points
on the x axis, query (0.3,0,0), r = 0.3, single-leaf tree). -/
theorem c1_ball_query_completeness_witness :
    ∃ bonds, ballQueryBonds s1Box s1Pts s1Tree s1Q (3/10) = .ok bonds ∧
      (↑bonds : Multiset (ℕ × ℚ)) = ↑(ballClaimBonds s1Box s1Pts 3 s1Q (3/10)) :=
  c1_ball_query_completeness s1Box s1Pts 3 s1Tree s1Q (3/10) (by norm_num)
    ⟨by decide, by decide, by decide, by decide⟩ (by decide) (by decide)

theorem boxTooSmallCheck_true_iff (b : Box) (r : ℚ) :
    boxTooSmallCheck b r = true ↔
      (b.px = true ∧ b.nearestPlaneDistance.x ≤ r * 2) ∨
        (b.py = true ∧ b.nearestPlaneDistance.y ≤ r * 2) ∨
        (b.is2D = false ∧ b.pz = true ∧
          b.nearestPlaneDistance.z ≤ r * 2) := by
  simp only [boxTooSmallCheck, Bool.or_eq_true, Bool.and_eq_true,
    decide_eq_true_eq, Bool.not_eq_true', or_assoc, and_assoc]

/-- **C4** — BoxTooSmall raise-iff: computing the image vectors raises
`BoxTooSmall` iff some periodic axis (z counted only in 3D) has
nearest-plane distance `≤ 2·rmax`; when it does not raise, the number of
enumerated image shifts is `3^d` for `d` the count of periodic dimensions,
with the zero shift emitted first. -/
theorem c4_box_too_small_iff (b : Box) (r : ℚ) :
    (updateImageVectors b r = .error .boxTooSmall ↔
      (b.px = true ∧ b.nearestPlaneDistance.x ≤ r * 2) ∨
        (b.py = true ∧ b.nearestPlaneDistance.y ≤ r * 2) ∨
        (b.is2D = false ∧ b.pz = true ∧
          b.nearestPlaneDistance.z ≤ r * 2)) ∧
    ∀ images, updateImageVectors b r = .ok images →
      images.length = 3 ^ nDimPeriodic b ∧ images.head? = some Vec3.zero := by
  constructor
  · constructor
    · intro h
      by_cases hc : boxTooSmallCheck b r = true
      · exact (boxTooSmallCheck_true_iff b r).mp hc
      · rw [updateImageVectors, if_neg (by simp [Bool.not_eq_true] at hc ⊢; exact hc)] at h
        exact absurd h (by simp)
    · intro h
      rw [updateImageVectors, if_pos ((boxTooSmallCheck_true_iff b r).mpr h)]
  · intro images h
    have hc : boxTooSmallCheck b r = false := by
      by_contra hc
      rw [Bool.not_eq_false] at hc
      rw [updateImageVectors, if_pos hc] at h
      exact absurd h (by simp)
    rw [updateImageVectors, if_neg (by simp [hc])] at h
    simp only [Except.ok.injEq] at h
    constructor
    · rw [← h, List.length_map, imageTriples_length]
    · rw [← h]
      simp only [imageTriples, List.map_cons, List.head?_cons,
        Option.some.injEq]
      simp [imageShift, Box.latticeVector, Vec3.zero, Vec3.mk.injEq]

/-- Witness for C4: scenario S3 (unit periodic box, r = 0.6) raises
`BoxTooSmall`; the S1 non-periodic box at r = 0.3 succeeds with `3^0 = 1`
image, the zero shift first. -/
theorem c4_box_too_small_iff_witness :
    (updateImageVectors s3Box (6/10) = .error .boxTooSmall) ∧
    ∃ images, updateImageVectors s1Box (3/10) = .ok images ∧
      images.length = 3 ^ nDimPeriodic s1Box ∧
      images.head? = some Vec3.zero := by
  constructor
  · exact (c4_box_too_small_iff s3Box (6/10)).1.mpr
      (Or.inl ⟨rfl, by norm_num [s3Box]⟩)
  · exact ⟨_, rfl, (c4_box_too_small_iff s1Box (3/10)).2 _ rfl⟩

/-- **C2** — K-NN adequacy fails on the code: with k = 1 and two points at
distances 0.1 and 0.2 of the query (both far within half the minimum plane
distance, 5), the iterator returns *two* bonds before the terminator, not
exactly k = 1: the radius-expansion loop stops as soon as the buffer holds at
least k neighbors (AABBQuery.cc:219-222) and `next()` then drains the whole
buffer without trimming it to k. -/
theorem c2_knn_returns_all_hits_not_k :
    ∃ bonds, knnCollect (aabbKnnBallAt c2Box c2Pts c2Tree Vec3.zero) 1 (11/10)
        (Box.minPlaneDistance c2Box) 3 3 ⟨1/2, false, []⟩ = some bonds ∧
      bonds = [(0, 1/100), (1, 1/25)] ∧ bonds.length ≠ 1 := by
  refine ⟨[(0, 1/100), (1, 1/25)], by decide, rfl, by decide⟩

/-- **C3** — flat-array construction: on the valid sorted input with
`query_point_index = [0, 1]`, the constructor succeeds but stores query
indices `[0, 0]`: line 53 of NeighborList.cc assigns the stale `last_index`
instead of `index`, so every stored query index is the previous row's.  The
claim requires the stored column to equal the input `[0, 1]`. -/
theorem c3_from_arrays_stores_stale_query_index :
    ∃ rows, fromArraysLoop 2 1 0 [(0, 0, 1, 1), (1, 0, 2, 1)] = .ok rows ∧
      rows = [⟨0, 0, 1, 1⟩, ⟨0, 0, 2, 1⟩] ∧
      rows.map NeighborBond.queryIdx ≠ [0, 1] := by
  refine ⟨[⟨0, 0, 1, 1⟩, ⟨0, 0, 2, 1⟩], by decide, rfl, by decide⟩

/-- **C5** — K-NN terminator on exhaustion fails on the code: on an empty
point set (unit non-periodic box, k = 1, r₀ = 0.1, scale = 2) the expansion
loop terminates with an empty buffer once the radius exceeds half the
minimum plane distance, and `next()` then reaches the end of the function
with *no* return statement (`noReturn`, undefined behavior) instead of
returning the terminator; `m_finished` is never set. -/
theorem c5_knn_next_falls_through_without_return :
    knnNext (aabbKnnBallAt c5Box (fun _ => Vec3.zero) (.leaf []) Vec3.zero) 1 2
        (Box.minPlaneDistance c5Box) 4 ⟨1/10, false, []⟩ =
      some (.ok (.noReturn, ⟨4/5, false, []⟩)) := by decide

/-- **C6 counterexample** — the claim's call `filter_r(0.25, 0.75)` (lower
bound first) applied to the C++ signature `filter_r(r_max, r_min)` keeps the
bonds with `0.75 < d < 0.25`, i.e. none of the ten S6 bonds — not the five
the claim requires. -/
theorem c6_filter_r_argument_order_counterexample :
    (s6List.filter_r (25/100) (75/100)).rows.length = 0 ∧ (0 : ℕ) ≠ 5 := by
  refine ⟨by decide, by decide⟩

/-- **C6 (amended)** — `filter_r` takes the *upper* bound as its first
parameter: `filter_r(r_max, r_min)` keeps exactly the bonds with distance
strictly inside the open interval `(r_min, r_max)`, compacts in place
preserving the relative order of kept bonds, and never grows the list; on
the ten S6 bonds at distances 0.1,…,1.0, `filter_r(0.75, 0.25)` leaves
exactly the five bonds with distances 0.3,…,0.7. -/
theorem c6_filter_r_amended :
    (∀ (nl : NeighborListData) (rMax rMin : ℚ),
      (nl.filter_r rMax rMin).rows = nl.rows.filter (fun row =>
        decide (rMin < row.distance) && decide (row.distance < rMax)) ∧
      (nl.filter_r rMax rMin).rows.Sublist nl.rows ∧
      (nl.filter_r rMax rMin).rows.length ≤ nl.rows.length) ∧
    (s6List.filter_r (75/100) (25/100)).rows.map NeighborBond.distance =
      [3/10, 4/10, 1/2, 6/10, 7/10] := by
  have hloop : ∀ (rMax rMin : ℚ) (rows : List NeighborBond),
      filterRLoop rMax rMin rows = rows.filter (fun row =>
        decide (rMin < row.distance) && decide (row.distance < rMax)) := by
    intro rMax rMin rows
    induction rows with
    | nil => rfl
    | cons row rest ih =>
      rw [filterRLoop, List.filter_cons]
      split
      · rw [ih]
      · rw [ih]
  constructor
  · intro nl rMax rMin
    refine ⟨hloop rMax rMin nl.rows, ?_, ?_⟩
    · rw [NeighborListData.filter_r]
      exact (hloop rMax rMin nl.rows) ▸ List.filter_sublist _
    · rw [NeighborListData.filter_r]
      exact (hloop rMax rMin nl.rows) ▸ (List.filter_sublist _).length_le
  · decide

set_option maxRecDepth 4000 in
/-- **C7** — round-trip fails on the code in the weights: materializing a
one-bond ball query and re-iterating the bond list with the per-pair driver
reproduces the (query, point, distance) triple but the weight becomes the
`memset` byte-pattern float `8454401/2^148 ≈ 2.37·10^-38` instead of the
stream bond's unit weight, so the bond multisets differ. -/
theorem c7_round_trip_weight_mismatch :
    perPairDriverBonds (toNeighborListModel 1 false 1 fun _ => [(0, 1)]) =
        [⟨0, 0, 1, memsetFloatOne⟩] ∧
      streamBonds 1 false (fun _ => [(0, 1)]) = [⟨0, 0, 1, 1⟩] ∧
      memsetFloatOne ≠ 1 ∧
      (↑(perPairDriverBonds (toNeighborListModel 1 false 1 fun _ => [(0, 1)])) :
          Multiset NeighborBond) ≠
        (↑(streamBonds 1 false fun _ => [(0, 1)]) : Multiset NeighborBond) := by
  refine ⟨by decide, by decide, by decide, by decide⟩

/-- **C8** — QueryArgs mode inference: with mode NONE, issuing a query
dispatches to NEAREST when `num_neigh` is set (≠ -1); otherwise to BALL when
`r_max` is set; and when neither is set the call raises the
invalid-arguments error instead of returning an iterator. -/
theorem c8_query_args_mode_inference (args : QueryArgs)
    (h : args.mode = .qtNone) :
    (args.numNeigh ≠ -1 →
      queryWithArgs args = .ok (.nearestQuery args.numNeigh args.excludeII)) ∧
    (args.numNeigh = -1 → args.rMax ≠ -1 →
      queryWithArgs args = .ok (.ballQuery args.rMax args.excludeII)) ∧
    (args.numNeigh = -1 → args.rMax = -1 →
      queryWithArgs args = .error .invalidQueryArgs) := by
  obtain ⟨mode, numNeigh, rMax, scale, excludeII⟩ := args
  subst h
  refine ⟨?_, ?_, ?_⟩
  · intro hn
    have hn2 : numNeigh ≠ -1 := hn
    simp [queryWithArgs, validateQueryArgs, inferMode, hn2]
  · intro hn hrm
    have hn2 : numNeigh = -1 := hn
    have hrm2 : rMax ≠ -1 := hrm
    subst hn2
    simp [queryWithArgs, validateQueryArgs, inferMode, hrm2]
  · intro hn hrm
    have hn2 : numNeigh = -1 := hn
    have hrm2 : rMax = -1 := hrm
    subst hn2
    subst hrm2
    simp [queryWithArgs, validateQueryArgs, inferMode]

/-- Witness for C8 at concrete arguments: `num_neigh = 4` infers a nearest
query; both sentinels left at -1 raise the invalid-arguments error. -/
theorem c8_query_args_mode_inference_witness :
    queryWithArgs ⟨.qtNone, 4, -1, 11/10, false⟩ =
        .ok (.nearestQuery 4 false) ∧
      queryWithArgs ⟨.qtNone, -1, -1, 11/10, false⟩ =
        .error .invalidQueryArgs :=
  ⟨(c8_query_args_mode_inference ⟨.qtNone, 4, -1, 11/10, false⟩ rfl).1
      (by decide),
    (c8_query_args_mode_inference ⟨.qtNone, -1, -1, 11/10, false⟩ rfl).2.2
      rfl rfl⟩

/-- **C9** — point indexing is bounds-checked: `operator[]` returns the
stored point for `i < N` and raises an error for `i ≥ N`; it never reads
past the point list. -/
theorem c9_point_indexing_bounds_checked (nq : NeighborQueryData) (i : ℕ) :
    (∀ h : i < nq.points.length,
      nq.getPoint i = .ok (nq.points.get ⟨i, h⟩)) ∧
    (nq.points.length ≤ i → nq.getPoint i = .error .accessOutOfRange) := by
  constructor
  · intro h
    rw [NeighborQueryData.getPoint, dif_neg (not_le.mpr h)]
  · intro h
    rw [NeighborQueryData.getPoint, dif_pos h]

/-- Witness for C9 on a one-point handle: index 0 succeeds with the stored
point, index 5 raises. -/
theorem c9_point_indexing_bounds_checked_witness :
    NeighborQueryData.getPoint ⟨s1Box, [⟨1, 2, 3⟩]⟩ 0 = .ok ⟨1, 2, 3⟩ ∧
      NeighborQueryData.getPoint ⟨s1Box, [⟨1, 2, 3⟩]⟩ 5 =
        .error .accessOutOfRange :=
  ⟨(c9_point_indexing_bounds_checked ⟨s1Box, [⟨1, 2, 3⟩]⟩ 0).1 (by decide),
    (c9_point_indexing_bounds_checked ⟨s1Box, [⟨1, 2, 3⟩]⟩ 5).2 (by decide)⟩

/-- **C10** — exclude_ii materialization restores k on error: with
`exclude_ii` true, `toNeighborList` invokes the inner materialization with
`m_k + 1`, and when that materialization raises, `m_k` is restored to its
original value before the error propagates. -/
theorem c10_exclude_ii_restores_k_on_error {α : Type} (k : ℕ)
    (inner : ℕ → Except FreudError α) :
    (toNeighborListAdjustK true k inner).1 = inner (k + 1) ∧
    ∀ e, inner (k + 1) = .error e →
      (toNeighborListAdjustK true k inner).2 = k := by
  constructor
  · cases hi : inner (k + 1) <;>
      simp [toNeighborListAdjustK, hi]
  · intro e he
    simp [toNeighborListAdjustK, he]

/-- Witness for C10 with a failing inner materialization at k = 3. -/
theorem c10_exclude_ii_restores_k_on_error_witness :
    (toNeighborListAdjustK true 3
      (fun _ => (.error .unsupported : Except FreudError ℕ))).2 = 3 :=
  (c10_exclude_ii_restores_k_on_error 3
    (fun _ => (.error .unsupported : Except FreudError ℕ))).2 .unsupported rfl

end Freud
